import Mathlib

/-!
Shallow embedding of the SAP documentation comparison engine
(`comparator/compare_content.py`) and verification of its specified
properties.  Texts and lines are modelled as `List Char`; the Python
regular expressions are translated into explicit character scanners.
Whitespace, digits and case folding are modelled over their ASCII
ranges (the engine's inputs are ASCII text plus the specific bullet and
arrow glyphs handled below); line splitting covers `\n`, `\r\n` and
`\r`.
-/

set_option maxRecDepth 10000

namespace SapDoc

/-- ASCII whitespace characters recognised by `str.strip` and the `\s`
character class (space, tab, newline, carriage return, vertical tab,
form feed). -/
def isSpaceChar (c : Char) : Bool :=
  c = ' ' || c = '\t' || c = '\n' || c = '\r' || c = '\x0b' || c = '\x0c'

/-- Bullet glyphs of `_BULLET_RE` (the class lists `•·-*` plus U+2022,
U+2023, U+25E6, U+2043, U+2219). -/
def isBulletChar (c : Char) : Bool :=
  c = '•' || c = '·' || c = '-' || c = '*' || c = '‣' || c = '◦' || c = '⁃' || c = '∙'

/-- Arrow glyphs of `_ARROW_RE`: `→ ► ▶ ➜ ➤ »`. -/
def isArrowChar (c : Char) : Bool :=
  c = '→' || c = '►' || c = '▶' || c = '➜' || c = '➤' || c = '»'

/-- Separator characters of `_SEPARATOR_RE`: `- = * _ ─`. -/
def isSepChar (c : Char) : Bool :=
  c = '-' || c = '=' || c = '*' || c = '_' || c = '─'

/-- Dash characters of `_TABLE_SEP_RE`: `- ─`. -/
def isDashChar (c : Char) : Bool :=
  c = '-' || c = '─'

/-- `str.strip()`: drop whitespace from both ends (trailing first, then
leading; the order does not matter). -/
def stripChars (l : List Char) : List Char :=
  ((l.reverse.dropWhile isSpaceChar).reverse).dropWhile isSpaceChar

/-- `str.splitlines()`: split on `\n`, `\r\n` and `\r`; a trailing line
break produces no final empty line. -/
def splitlinesAux (cur : List Char) : List Char → List (List Char)
  | [] => [cur.reverse]
  | '\r' :: '\n' :: rest =>
      cur.reverse :: (if rest.isEmpty then [] else splitlinesAux [] rest)
  | '\r' :: rest =>
      cur.reverse :: (if rest.isEmpty then [] else splitlinesAux [] rest)
  | '\n' :: rest =>
      cur.reverse :: (if rest.isEmpty then [] else splitlinesAux [] rest)
  | c :: rest => splitlinesAux (c :: cur) rest

def splitlines (s : List Char) : List (List Char) :=
  match s with
  | [] => []
  | _ => splitlinesAux [] s

/-- One application of `_BULLET_RE.sub('', s)`: the anchored pattern
`^\s*[bullet]\s*` removes leading whitespace, one bullet glyph and the
whitespace after it, when such a prefix exists. -/
def bulletSub (s : List Char) : List Char :=
  match s.dropWhile isSpaceChar with
  | c :: rest => if isBulletChar c then rest.dropWhile isSpaceChar else s
  | [] => s

/-- One application of `_STEP_NUMBER_RE.sub('', s)`: the anchored
pattern `^\s*(\d+)[\.\)]\s*` removes a leading step number such as
`"3. "`, when present. -/
def stepNumSub (s : List Char) : List Char :=
  let t := s.dropWhile isSpaceChar
  let ds := t.takeWhile Char.isDigit
  let r := t.dropWhile Char.isDigit
  if ds = [] then s
  else
    match r with
    | c :: rest => if c = '.' || c = ')' then rest.dropWhile isSpaceChar else s
    | [] => s

/-- Value of the digit group captured by `_STEP_NUMBER_RE`. -/
def digitsToNat (ds : List Char) : Nat :=
  ds.foldl (fun a c => a * 10 + (c.toNat - 48)) 0

/-- `_STEP_NUMBER_RE.match(s)` followed by `int(m.group(1))`: the step
number at the start of `s`, when the pattern matches. -/
def stepNumOf (s : List Char) : Option Nat :=
  let t := s.dropWhile isSpaceChar
  let ds := t.takeWhile Char.isDigit
  let r := t.dropWhile Char.isDigit
  if ds = [] then none
  else
    match r with
    | c :: _ => if c = '.' || c = ')' then some (digitsToNat ds) else none
    | [] => none

/-- Scanner for `_ARROW_RE.sub(' > ', s)`.  `afterArrow` records that
the trailing `\s*` of a match is being consumed; `pending` holds (in
reverse) a whitespace run that still may turn out to lead an arrow. -/
def arrowSubAux (afterArrow : Bool) (pending : List Char) : List Char → List Char
  | [] => if afterArrow then [] else pending.reverse
  | c :: rest =>
    if isArrowChar c then ' ' :: '>' :: ' ' :: arrowSubAux true [] rest
    else if isSpaceChar c then
      if afterArrow then arrowSubAux true [] rest
      else arrowSubAux false (c :: pending) rest
    else (if afterArrow then [] else pending.reverse) ++ (c :: arrowSubAux false [] rest)

/-- `_ARROW_RE.sub(' > ', s)`: every maximal `\s*[arrow]\s*` segment is
rewritten to `" > "`, scanning left to right. -/
def arrowSub (s : List Char) : List Char := arrowSubAux false [] s

/-- `re.sub(r'\s+', ' ', s)`: collapse every whitespace run to a single
space.  `prevSpace` records that the current whitespace run has already
emitted its space. -/
def collapseWsAux (prevSpace : Bool) : List Char → List Char
  | [] => []
  | c :: rest =>
    if isSpaceChar c then
      if prevSpace then collapseWsAux true rest
      else ' ' :: collapseWsAux true rest
    else c :: collapseWsAux false rest

def collapseWs (s : List Char) : List Char := collapseWsAux false s

/-- `str.lower()` (ASCII case folding). -/
def lowerChars (l : List Char) : List Char := l.map Char.toLower

/-- `_normalize_line`: strip, remove a leading bullet, remove a leading
step number, rewrite arrows to `" > "`, collapse whitespace, strip and
lowercase.  Empty or whitespace-only lines normalize to the empty
string. -/
def normalizeLine (line : List Char) : List Char :=
  if stripChars line = [] then []
  else
    let s := stripChars line
    let s := bulletSub s
    let s := stepNumSub s
    let s := arrowSub s
    lowerChars (stripChars (collapseWs s))

/-- `_SEPARATOR_RE` applied to a stripped line: three or more separator
characters and nothing else. -/
def isSeparatorLine (s : List Char) : Bool :=
  decide (3 ≤ s.length) && s.all isSepChar

/-- Scanner for the `(\s{2,}[-─]+)+$` tail of `_TABLE_SEP_RE`: one or
more groups of two-plus whitespace characters followed by a dash run,
consuming the whole remaining string.  `inDash` records that a group's
dash run has started; `wsCount` counts the current whitespace run. -/
def tableSepGroupsAux (inDash : Bool) (wsCount : Nat) : List Char → Bool
  | [] => inDash
  | c :: rest =>
    if inDash then
      if isDashChar c then tableSepGroupsAux true 0 rest
      else if isSpaceChar c then tableSepGroupsAux false 1 rest
      else false
    else
      if isSpaceChar c then tableSepGroupsAux false (wsCount + 1) rest
      else if isDashChar c then decide (2 ≤ wsCount) && tableSepGroupsAux true 0 rest
      else false

def tableSepGroups (s : List Char) : Bool := tableSepGroupsAux false 0 s

/-- `_TABLE_SEP_RE` applied to a stripped line: a dash run followed by
one or more (two-plus whitespace, dash run) groups. -/
def isTableSepLine (s : List Char) : Bool :=
  let d := s.takeWhile isDashChar
  let r := s.dropWhile isDashChar
  !d.isEmpty && tableSepGroups r

/-- `_is_noise`: blank lines, horizontal-rule lines and table-separator
lines carry no semantic content. -/
def isNoise (line : List Char) : Bool :=
  let s := stripChars line
  s.isEmpty || isSeparatorLine s || isTableSepLine s

/-- Semantic line categories of `_classify_line`. -/
inductive Category : Type
  | section_header
  | instruction
  | prerequisite
  | note
  | content
  | noise
deriving DecidableEq, Repr

/-- Severity levels, ordered LOW < MEDIUM < HIGH. -/
inductive Severity : Type
  | LOW
  | MEDIUM
  | HIGH
deriving DecidableEq, Repr

/-- `_SEVERITY_ORDER`: numeric rank of a severity. -/
def sevOrder : Severity → Nat
  | .HIGH => 3
  | .MEDIUM => 2
  | .LOW => 1

/-- `_ACTION_VERBS`. -/
def actionVerbs : List (List Char) :=
  ["choose".data, "select".data, "click".data, "enter".data, "navigate".data,
   "open".data, "upload".data, "download".data, "save".data, "add".data,
   "remove".data, "delete".data, "create".data, "configure".data, "check".data,
   "verify".data, "confirm".data, "submit".data, "type".data, "drag".data,
   "drop".data, "browse".data, "expand".data, "collapse".data, "go".data,
   "log".data, "sign".data, "press".data, "enable".data, "disable".data,
   "set".data, "change".data, "update".data, "assign".data, "map".data,
   "register".data, "subscribe".data, "search".data, "copy".data,
   "paste".data, "refresh".data]

/-- `_SECTION_KEYWORDS`. -/
def sectionKeywords : List (List Char) :=
  ["prerequisites".data, "prerequisite".data, "procedure".data, "results".data,
   "result".data, "context".data, "steps".data, "next steps".data,
   "related information".data]

/-- The apostrophe character, used in two prerequisite phrases. -/
def apos : Char := Char.ofNat 39

/-- The prerequisite opening phrases checked by `_classify_line`. -/
def prereqPhrases : List (List Char) :=
  ["you".data ++ [apos] ++ "ve".data,
   "you".data ++ [apos] ++ "re".data,
   "you need".data, "you must".data, "you have".data, "you should".data]

/-- `norm.rstrip(':')`: drop trailing colons. -/
def rstripColon (l : List Char) : List Char :=
  (l.reverse.dropWhile (fun c => c = ':')).reverse

/-- Characters stripped by `stripped.lstrip('•·-* ')`. -/
def isPrereqBulletChar (c : Char) : Bool :=
  c = '•' || c = '·' || c = '-' || c = '*' || c = ' '

/-- `_classify_line`: priority chain assigning a semantic category. -/
def classifyLine (line : List Char) : Category :=
  let stripped := stripChars line
  if stripped.isEmpty || isNoise stripped then .noise
  else
    let norm := normalizeLine stripped
    if norm.isEmpty then .noise
    else
      let clean := stripChars (rstripColon norm)
      if sectionKeywords.contains clean then .section_header
      else if ("steps in".data).isPrefixOf norm || ("steps for".data).isPrefixOf norm then
        .section_header
      else
        let firstWord := norm.takeWhile (fun c => !isSpaceChar c)
        if actionVerbs.contains firstWord then .instruction
        else if prereqPhrases.any
            (fun p => p.isPrefixOf (lowerChars (stripped.dropWhile isPrereqBulletChar))) then
          .prerequisite
        else if ("note:".data).isPrefixOf norm || ("note ".data).isPrefixOf norm
            || norm = "note".data then .note
        else .content

/-- `_SEVERITY_MAP` / `_severity_for`. -/
def severityFor : Category → Severity
  | .instruction => .HIGH
  | .section_header => .HIGH
  | .prerequisite => .HIGH
  | .note => .MEDIUM
  | .content => .MEDIUM
  | .noise => .LOW

/-- Structural warning kinds. -/
inductive WarnType : Type
  | NUMBERING_GAP
  | MISSING_SECTION
  | MISSING_PREREQUISITE
deriving DecidableEq, Repr

/-- A structural warning `{type, severity, message}`. -/
structure StructuralWarning : Type where
  wtype : WarnType
  severity : Severity
  message : List Char
deriving DecidableEq, Repr

/-- A change entry `{text, severity, category}`. -/
structure ChangeEntry : Type where
  text : List Char
  severity : Severity
  category : Category
deriving DecidableEq, Repr

/-- The result record returned by `compare`. -/
structure ComparisonResult : Type where
  has_changes : Bool
  added : List ChangeEntry
  removed : List ChangeEntry
  structural_warnings : List StructuralWarning
  max_severity : Option Severity
deriving DecidableEq, Repr

/-- Decimal digits of a natural number (`str(n)` for the f-string
messages), with structural fuel (`n` itself always suffices since the
value shrinks by a factor of ten per digit). -/
def natToCharsAux : Nat → Nat → List Char → List Char
  | 0, n, acc => Char.ofNat (48 + n % 10) :: acc
  | fuel + 1, n, acc =>
    if n < 10 then Char.ofNat (48 + n % 10) :: acc
    else natToCharsAux fuel (n / 10) (Char.ofNat (48 + n % 10) :: acc)

def natToChars (n : Nat) : List Char := natToCharsAux n n []

/-- Message of a `NUMBERING_GAP` warning. -/
def gapMessage (missing prev num : Nat) : List Char :=
  "Step ".data ++ natToChars missing ++ " is missing (numbering jumps from ".data
    ++ natToChars prev ++ " to ".data ++ natToChars num ++ ")".data

/-- One iteration of the `_detect_numbering_gaps` loop: the state is the
optional previous number together with the warnings list. -/
def gapStep (st : Option Nat × List StructuralWarning) (line : List Char) :
    Option Nat × List StructuralWarning :=
  match stepNumOf (stripChars line) with
  | none => st
  | some num =>
    if num = 1 then (some 1, st.2)
    else
      match st.1 with
      | some p =>
          if p + 1 < num then
            (some num, st.2 ++ (List.range' (p + 1) (num - (p + 1))).map
              (fun m => ⟨.NUMBERING_GAP, .HIGH, gapMessage m p num⟩))
          else (some num, st.2)
      | none => (some num, st.2)

/-- `_detect_numbering_gaps`. -/
def detectNumberingGaps (text : List Char) : List StructuralWarning :=
  ((splitlines text).foldl gapStep (none, [])).2

/-- Substring test (`needle in haystack` on Python strings). -/
def containsSub (needle : List Char) : List Char → Bool
  | [] => needle.isEmpty
  | c :: t => needle.isPrefixOf (c :: t) || containsSub needle t

/-- `_detect_missing_sections`. -/
def detectMissingSections (text : List Char) : List StructuralWarning :=
  let norm := lowerChars text
  let hasProcedures := containsSub "choose ".data norm || containsSub "select ".data norm
    || containsSub "navigate ".data norm
  if !hasProcedures then []
  else
    (if containsSub "prerequisites".data norm then []
     else [⟨.MISSING_SECTION, .HIGH,
       "Prerequisites section may be missing from the document".data⟩])
    ++ (if containsSub "procedure".data norm then []
        else [⟨.MISSING_SECTION, .HIGH,
          "Procedure section may be missing from the document".data⟩])

/-- The set of normalized prerequisite lines of a text (`_prereq_lines`),
modelled as a duplicate-free list. -/
def prereqSetList (text : List Char) : List (List Char) :=
  (((splitlines text).filter (fun l => classifyLine l = .prerequisite)).map
    normalizeLine).dedup

/-- Message of a `MISSING_PREREQUISITE` warning. -/
def prereqMessage (missing : List Char) : List Char :=
  "Prerequisite removed: \"".data ++ missing ++ "\"".data

/-- `_detect_missing_prerequisites`: one warning per normalized
prerequisite line present in the old text but absent from the new. -/
def detectMissingPrereqs (oldT newT : List Char) : List StructuralWarning :=
  ((prereqSetList oldT).filter (fun x => !(prereqSetList newT).contains x)).map
    (fun m => ⟨.MISSING_PREREQUISITE, .HIGH, prereqMessage m⟩)

/-- `_validate_structure`: run both per-text detectors on both texts,
keep only new-text warnings whose message is not among the old text's
warning messages, and always append the missing-prerequisite
warnings. -/
def validateStructure (oldT newT : List Char) : List StructuralWarning :=
  let oldWs := detectNumberingGaps oldT ++ detectMissingSections oldT
  let newWs := detectNumberingGaps newT ++ detectMissingSections newT
  let oldMsgs := oldWs.map (fun w => w.message)
  (newWs.filter (fun w => !oldMsgs.contains w.message))
    ++ detectMissingPrereqs oldT newT

/-- Per-side data of the diff engine: the list of `(normalized, first
original stripped line)` pairs of the non-noise, non-empty-normal
lines, in text order. -/
def normPairs (text : List Char) : List (List Char × List Char) :=
  (splitlines text).filterMap (fun line =>
    if isNoise line then none
    else
      let n := normalizeLine line
      if n.isEmpty then none else some (n, stripChars line))

/-- The normalized line list of a side (`old_norm_list`). -/
def normList (text : List Char) : List (List Char) :=
  (normPairs text).map Prod.fst

/-- `old_norm_map.get(k)`: first original stripped line recorded for a
normalized value (`dict.setdefault` keeps the first occurrence). -/
def lookupFirst (ps : List (List Char × List Char)) (k : List Char) :
    Option (List Char) :=
  (ps.find? (fun p => p.1 == k)).map Prod.snd

/-- Lexicographic code-point comparison of Python strings (`sorted`). -/
def lexLe : List Char → List Char → Bool
  | [], _ => true
  | _ :: _, [] => false
  | a :: as, b :: bs =>
    if a.toNat < b.toNat then true
    else if a.toNat = b.toNat then lexLe as bs
    else false

/-- Insertion step of a stable sort: insert before the first element
`b` with `le a b`. -/
def stableInsert {α : Type} (le : α → α → Bool) (a : α) : List α → List α
  | [] => [a]
  | b :: l => if le a b then a :: b :: l else b :: stableInsert le a l

/-- Stable sort (matching Python's stable `list.sort`). -/
def stableSort {α : Type} (le : α → α → Bool) : List α → List α
  | [] => []
  | a :: l => stableInsert le a (stableSort le l)

/-- `sorted(set(old_norm_list) | set(new_norm_list))`: the distinct
normalized keys of both sides in ascending lexicographic order. -/
def allNorms (oldT newT : List Char) : List (List Char) :=
  stableSort lexLe ((normList oldT ++ normList newT).dedup)

/-- The block of `removed` entries that a single normalized key
contributes (the `old_c > new_c` branch of the `compare` loop). -/
def removedBlock (oldT newT : List Char) (k : List Char) : List ChangeEntry :=
  let oc := (normList oldT).count k
  let nc := (normList newT).count k
  if nc < oc then
    let original := (lookupFirst (normPairs oldT) k).getD k
    let cat := classifyLine original
    if cat = .noise then []
    else List.replicate (oc - nc) ⟨original, severityFor cat, cat⟩
  else []

/-- The block of `added` entries that a single normalized key
contributes (the `new_c > old_c` branch of the `compare` loop). -/
def addedBlock (oldT newT : List Char) (k : List Char) : List ChangeEntry :=
  let oc := (normList oldT).count k
  let nc := (normList newT).count k
  if oc < nc then
    let original := (lookupFirst (normPairs newT) k).getD k
    let cat := classifyLine original
    if cat = .noise then []
    else List.replicate (nc - oc) ⟨original, severityFor cat, cat⟩
  else []

/-- Severity-descending comparison used by the final `list.sort` calls
(`key = -_SEVERITY_ORDER[severity]`, ascending, stable). -/
def entryLe (a b : ChangeEntry) : Bool :=
  sevOrder b.severity ≤ sevOrder a.severity

def warnLe (a b : StructuralWarning) : Bool :=
  sevOrder b.severity ≤ sevOrder a.severity

/-- Python `max(sevs, key=_SEVERITY_ORDER.get)`: first element of
maximal rank, `none` on the empty list. -/
def pyMaxSev : List Severity → Option Severity
  | [] => none
  | s :: l => some (l.foldl (fun a b => if sevOrder a < sevOrder b then b else a) s)

/-- `compare(old_text, new_text)`: the comparison engine. -/
def compare (oldT newT : List Char) : ComparisonResult :=
  let rem := (allNorms oldT newT).flatMap (removedBlock oldT newT)
  let add := (allNorms oldT newT).flatMap (addedBlock oldT newT)
  let sw := validateStructure oldT newT
  let allSevs := (add.map (fun c => c.severity)) ++ (rem.map (fun c => c.severity))
    ++ (sw.map (fun w => w.severity))
  { has_changes := !add.isEmpty || !rem.isEmpty
    added := stableSort entryLe add
    removed := stableSort entryLe rem
    structural_warnings := stableSort warnLe sw
    max_severity := pyMaxSev allSevs }

/-- A single cosmetic edit of a text, following the spec's list: change
a whitespace run, swap one bullet glyph for another, swap one arrow
glyph for another, or change the case of one letter. -/
inductive CosmeticStep : List Char → List Char → Prop
  | ws (pre mid1 mid2 post : List Char) :
      (∀ c ∈ mid1, isSpaceChar c = true) → (∀ c ∈ mid2, isSpaceChar c = true) →
      CosmeticStep (pre ++ mid1 ++ post) (pre ++ mid2 ++ post)
  | bullet (pre post : List Char) (b1 b2 : Char) :
      isBulletChar b1 = true → isBulletChar b2 = true →
      CosmeticStep (pre ++ b1 :: post) (pre ++ b2 :: post)
  | arrow (pre post : List Char) (a1 a2 : Char) :
      isArrowChar a1 = true → isArrowChar a2 = true →
      CosmeticStep (pre ++ a1 :: post) (pre ++ a2 :: post)
  | caseChange (pre post : List Char) (c1 c2 : Char) :
      Char.toLower c1 = Char.toLower c2 →
      CosmeticStep (pre ++ c1 :: post) (pre ++ c2 :: post)

/-- `T'` is obtained from `T` by a sequence of cosmetic edits. -/
def Cosmetic : List Char → List Char → Prop :=
  Relation.ReflTransGen CosmeticStep

/-! ### Properties of the stable sort -/

theorem mem_stableInsert {α : Type} (le : α → α → Bool) (a : α) (l : List α) (x : α) :
    x ∈ stableInsert le a l ↔ x = a ∨ x ∈ l := by
  induction l with
  | nil => simp [stableInsert]
  | cons b l ih =>
    simp only [stableInsert]
    cases hab : le a b
    · simp only [Bool.false_eq_true, if_false, List.mem_cons, ih]
      tauto
    · simp [List.mem_cons]

theorem perm_stableInsert {α : Type} (le : α → α → Bool) (a : α) (l : List α) :
    List.Perm (stableInsert le a l) (a :: l) := by
  induction l with
  | nil => exact List.Perm.refl _
  | cons b l ih =>
    simp only [stableInsert]
    cases hab : le a b
    · simp only [Bool.false_eq_true, if_false]
      exact List.Perm.trans (List.Perm.cons b ih) (List.Perm.swap a b l)
    · simp only [if_true]
      exact List.Perm.refl _

theorem perm_stableSort {α : Type} (le : α → α → Bool) (l : List α) :
    List.Perm (stableSort le l) l := by
  induction l with
  | nil => exact List.Perm.refl _
  | cons a l ih =>
    exact List.Perm.trans (perm_stableInsert le a _) (List.Perm.cons a ih)

theorem mem_stableSort {α : Type} (le : α → α → Bool) (l : List α) (x : α) :
    x ∈ stableSort le l ↔ x ∈ l :=
  (perm_stableSort le l).mem_iff

theorem stableSort_eq_nil_iff {α : Type} (le : α → α → Bool) (l : List α) :
    stableSort le l = [] ↔ l = [] := by
  constructor
  · intro h
    have hlen := (perm_stableSort le l).length_eq
    rw [h] at hlen
    simpa [List.length_eq_zero] using hlen.symm
  · intro h
    subst h
    rfl

/-- Stability: a pairwise relation that can only fail between elements
the sort actually swaps is preserved by insertion. -/
theorem pairwise_stableInsert {α : Type} (le : α → α → Bool) (Q : α → α → Prop)
    (a : α) (l : List α)
    (hglob : ∀ x y, le x y = false → Q y x)
    (h1 : List.Pairwise Q l) (h3 : ∀ y ∈ l, Q a y) :
    List.Pairwise Q (stableInsert le a l) := by
  induction l with
  | nil =>
    refine List.Pairwise.cons ?_ List.Pairwise.nil
    intro y hy
    simp at hy
  | cons b l ih =>
    rw [List.pairwise_cons] at h1
    obtain ⟨hb, hl⟩ := h1
    simp only [stableInsert]
    cases hab : le a b
    · simp only [Bool.false_eq_true, if_false]
      rw [List.pairwise_cons]
      constructor
      · intro y hy
        rw [mem_stableInsert] at hy
        rcases hy with hya | hy
        · rw [hya]
          exact hglob a b hab
        · exact hb y hy
      · exact ih hl (fun y hy => h3 y (List.mem_cons_of_mem b hy))
    · simp only [if_true]
      rw [List.pairwise_cons]
      constructor
      · intro y hy
        exact h3 y hy
      · rw [List.pairwise_cons]
        exact ⟨hb, hl⟩

theorem pairwise_stableSort {α : Type} (le : α → α → Bool) (Q : α → α → Prop)
    (l : List α)
    (hglob : ∀ x y, le x y = false → Q y x)
    (h : List.Pairwise Q l) :
    List.Pairwise Q (stableSort le l) := by
  induction l with
  | nil => exact List.Pairwise.nil
  | cons a l ih =>
    rw [List.pairwise_cons] at h
    obtain ⟨ha, hl⟩ := h
    refine pairwise_stableInsert le Q a _ hglob (ih hl) ?_
    intro y hy
    exact ha y ((mem_stableSort le l y).1 hy)

/-- Sortedness: inserting into a sorted list keeps it sorted, given
totality and transitivity of the comparison. -/
theorem sorted_stableInsert {α : Type} (le : α → α → Bool) (a : α) (l : List α)
    (htot : ∀ x y, le x y = true ∨ le y x = true)
    (htrans : ∀ x y z, le x y = true → le y z = true → le x z = true)
    (h : List.Pairwise (fun x y => le x y = true) l) :
    List.Pairwise (fun x y => le x y = true) (stableInsert le a l) := by
  induction l with
  | nil =>
    refine List.Pairwise.cons ?_ List.Pairwise.nil
    intro y hy
    simp at hy
  | cons b l ih =>
    rw [List.pairwise_cons] at h
    obtain ⟨hb, hl⟩ := h
    simp only [stableInsert]
    cases hab : le a b
    · simp only [Bool.false_eq_true, if_false]
      rw [List.pairwise_cons]
      constructor
      · intro y hy
        rw [mem_stableInsert] at hy
        rcases hy with hya | hy
        · rw [hya]
          rcases htot a b with h1 | h1
          · rw [h1] at hab
            exact absurd hab (by simp)
          · exact h1
        · exact hb y hy
      · exact ih hl
    · simp only [if_true]
      rw [List.pairwise_cons]
      constructor
      · intro y hy
        rcases List.mem_cons.1 hy with rfl | hy
        · exact hab
        · exact htrans a b y hab (hb y hy)
      · rw [List.pairwise_cons]
        exact ⟨hb, hl⟩

theorem sorted_stableSort {α : Type} (le : α → α → Bool) (l : List α)
    (htot : ∀ x y, le x y = true ∨ le y x = true)
    (htrans : ∀ x y z, le x y = true → le y z = true → le x z = true) :
    List.Pairwise (fun x y => le x y = true) (stableSort le l) := by
  induction l with
  | nil => exact List.Pairwise.nil
  | cons a l ih => exact sorted_stableInsert le a _ htot htrans ih

/-- When the comparison accepts every adjacent pair, the stable sort is
the identity. -/
theorem stableSort_eq_self {α : Type} (le : α → α → Bool) (l : List α)
    (h : ∀ x ∈ l, ∀ y ∈ l, le x y = true) : stableSort le l = l := by
  induction l with
  | nil => rfl
  | cons a l ih =>
    have hl : stableSort le l = l :=
      ih (fun x hx y hy => h x (by simp [hx]) y (by simp [hy]))
    show stableInsert le a (stableSort le l) = a :: l
    rw [hl]
    cases l with
    | nil => rfl
    | cons b l =>
      show (if le a b then a :: b :: l else b :: stableInsert le a l) = a :: b :: l
      rw [h a (by simp) b (by simp)]
      simp

/-! ### Properties of the lexicographic comparison -/

theorem lexLe_refl (l : List Char) : lexLe l l = true := by
  induction l with
  | nil => rfl
  | cons a l ih => simp [lexLe, ih]

theorem lexLe_total (a b : List Char) : lexLe a b = true ∨ lexLe b a = true := by
  induction a generalizing b with
  | nil => left; rfl
  | cons x xs ih =>
    cases b with
    | nil => right; rfl
    | cons y ys =>
      by_cases h1 : x.toNat < y.toNat
      · left; simp [lexLe, h1]
      · by_cases h2 : x.toNat = y.toNat
        · rcases ih ys with h | h
          · left; simp [lexLe, h1, h2, h]
          · right; simp [lexLe, h2.symm, h]
        · right
          have h3 : y.toNat < x.toNat := by omega
          simp [lexLe, h3]

theorem lexLe_trans (a b c : List Char) :
    lexLe a b = true → lexLe b c = true → lexLe a c = true := by
  induction a generalizing b c with
  | nil => intro _ _; rfl
  | cons x xs ih =>
    cases b with
    | nil => intro h _; simp [lexLe] at h
    | cons y ys =>
      cases c with
      | nil => intro _ h; simp [lexLe] at h
      | cons z zs =>
        intro h1 h2
        simp only [lexLe] at h1 h2 ⊢
        rcases Nat.lt_trichotomy x.toNat y.toNat with hxy | hxy | hxy
        · rcases Nat.lt_trichotomy y.toNat z.toNat with hyz | hyz | hyz
          · rw [if_pos (by omega)]
          · rw [if_pos (by omega)]
          · rw [if_neg (by omega), if_neg (by omega)] at h2
            exact absurd h2 (by simp)
        · rw [if_neg (by omega), if_pos hxy] at h1
          rcases Nat.lt_trichotomy y.toNat z.toNat with hyz | hyz | hyz
          · rw [if_pos (by omega)]
          · rw [if_neg (by omega), if_pos hyz] at h2
            rw [if_neg (by omega), if_pos (by omega)]
            exact ih ys zs h1 h2
          · rw [if_neg (by omega), if_neg (by omega)] at h2
            exact absurd h2 (by simp)
        · rw [if_neg (by omega), if_neg (by omega)] at h1
          exact absurd h1 (by simp)

/-! ### Properties of stripping and normalization -/

theorem dropWhile_idem {α : Type} (p : α → Bool) (l : List α) :
    (l.dropWhile p).dropWhile p = l.dropWhile p := by
  induction l with
  | nil => rfl
  | cons a l ih =>
    by_cases h : p a
    · rw [List.dropWhile_cons_of_pos h]
      exact ih
    · rw [List.dropWhile_cons_of_neg h, List.dropWhile_cons_of_neg h]

theorem getLast?_dropWhile {α : Type} (p : α → Bool) (l : List α)
    (h : l.dropWhile p ≠ []) :
    (l.dropWhile p).getLast? = l.getLast? := by
  induction l with
  | nil => simp at h
  | cons a l ih =>
    by_cases hp : p a
    · rw [List.dropWhile_cons_of_pos hp] at h ⊢
      rw [ih h]
      cases l with
      | nil => simp [List.dropWhile] at h
      | cons b m => rw [List.getLast?_cons_cons]
    · rw [List.dropWhile_cons_of_neg hp]

theorem dropWhile_head_not {α : Type} (p : α → Bool) (l : List α) (c : α) (t : List α)
    (h : l.dropWhile p = c :: t) : p c = false := by
  induction l with
  | nil => simp at h
  | cons a l ih =>
    by_cases hp : p a
    · rw [List.dropWhile_cons_of_pos hp] at h
      exact ih h
    · rw [List.dropWhile_cons_of_neg hp] at h
      cases h
      simpa using hp

theorem dropWhile_eq_self {α : Type} (p : α → Bool) (l : List α)
    (h : ∀ c t, l = c :: t → p c = false) : l.dropWhile p = l := by
  cases l with
  | nil => rfl
  | cons a t =>
    have ha := h a t rfl
    rw [List.dropWhile_cons_of_neg (by simp [ha])]

/-- Any nonempty stripped string ends in a non-whitespace character. -/
theorem stripChars_getLast (l : List Char) (h : stripChars l ≠ []) :
    ∃ c0, (stripChars l).getLast? = some c0 ∧ isSpaceChar c0 = false := by
  have hy : stripChars l = ((l.reverse.dropWhile isSpaceChar).reverse).dropWhile isSpaceChar :=
    rfl
  have hX : l.reverse.dropWhile isSpaceChar ≠ [] := by
    intro he
    rw [hy, he] at h
    simp at h
  rcases hXc : l.reverse.dropWhile isSpaceChar with _ | ⟨c0, t0⟩
  · exact absurd hXc hX
  · refine ⟨c0, ?_, dropWhile_head_not _ _ _ _ hXc⟩
    rw [hy] at h ⊢
    rw [getLast?_dropWhile _ _ h, List.getLast?_reverse, hXc]
    rfl

theorem stripChars_idem (l : List Char) : stripChars (stripChars l) = stripChars l := by
  by_cases hy : stripChars l = []
  · rw [hy]
    rfl
  · obtain ⟨c0, hc0, hpc0⟩ := stripChars_getLast l hy
    have hrev : (stripChars l).reverse.dropWhile isSpaceChar = (stripChars l).reverse := by
      apply dropWhile_eq_self
      intro c t hct
      have hh : (stripChars l).reverse.head? = some c := by rw [hct]; rfl
      rw [List.head?_reverse, hc0] at hh
      cases hh
      exact hpc0
    show ((stripChars l).reverse.dropWhile isSpaceChar).reverse.dropWhile isSpaceChar
        = stripChars l
    rw [hrev, List.reverse_reverse]
    show (((l.reverse.dropWhile isSpaceChar).reverse).dropWhile isSpaceChar).dropWhile
        isSpaceChar = stripChars l
    rw [dropWhile_idem]
    rfl

theorem normalizeLine_stripChars (l : List Char) :
    normalizeLine (stripChars l) = normalizeLine l := by
  unfold normalizeLine
  rw [stripChars_idem]

theorem isNoise_stripChars (l : List Char) :
    isNoise (stripChars l) = isNoise l := by
  unfold isNoise
  rw [stripChars_idem]

/-- A line that survives the noise filter and normalizes to a nonempty
string is never classified as `noise`. -/
theorem classifyLine_ne_noise (l : List Char)
    (h1 : isNoise l = false) (h2 : normalizeLine l ≠ []) :
    classifyLine l ≠ Category.noise := by
  have hne : (stripChars l).isEmpty = false := by
    rcases hs : stripChars l with _ | ⟨c, t⟩
    · exfalso
      apply h2
      unfold normalizeLine
      rw [hs]
      simp
    · rfl
  have hsn : isNoise (stripChars l) = false := by
    rw [isNoise_stripChars]
    exact h1
  have hnn : (normalizeLine (stripChars l)).isEmpty = false := by
    rw [normalizeLine_stripChars]
    rcases hn2 : normalizeLine l with _ | ⟨c, t⟩
    · exact absurd hn2 h2
    · rfl
  simp only [classifyLine]
  rw [hne, hsn, hnn]
  simp only [Bool.or_self, Bool.false_eq_true, if_false]
  split
  · simp
  · split
    · simp
    · split
      · simp
      · split
        · simp
        · split
          · simp
          · simp

/-- For a line that survives the noise filter and normalizes to a
nonempty string, the classifier never answers `noise` on its stripped
form (`original` in `compare`). -/
theorem classifyLine_stripChars_ne_noise (line : List Char)
    (h1 : isNoise line = false) (h2 : normalizeLine line ≠ []) :
    classifyLine (stripChars line) ≠ Category.noise := by
  apply classifyLine_ne_noise
  · rw [isNoise_stripChars]
    exact h1
  · rw [normalizeLine_stripChars]
    exact h2

/-! ### Properties of the diff engine -/

theorem mem_normPairs (text : List Char) (k t : List Char)
    (h : (k, t) ∈ normPairs text) :
    normalizeLine t = k ∧ k ≠ [] ∧ stripChars t = t ∧ classifyLine t ≠ Category.noise := by
  unfold normPairs at h
  rw [List.mem_filterMap] at h
  obtain ⟨line, hline, hf⟩ := h
  by_cases hni : isNoise line
  · simp [hni] at hf
  · have hni2 : isNoise line = false := by simpa using hni
    by_cases hem : (normalizeLine line).isEmpty
    · simp [hni2, hem] at hf
    · have hem2 : (normalizeLine line).isEmpty = false := by simpa using hem
      simp only [hni2, Bool.false_eq_true, if_false, hem2, Option.some.injEq,
        Prod.mk.injEq] at hf
      obtain ⟨hk, ht⟩ := hf
      have hnz : normalizeLine line ≠ [] := by
        intro he
        rw [he] at hem2
        simp at hem2
      subst hk
      subst ht
      refine ⟨?_, ?_, stripChars_idem line, ?_⟩
      · exact normalizeLine_stripChars line
      · exact hnz
      · exact classifyLine_stripChars_ne_noise line hni2 hnz

theorem lookupFirst_of_mem_normList (text k : List Char) (hk : k ∈ normList text) :
    ∃ s, lookupFirst (normPairs text) k = some s ∧ (k, s) ∈ normPairs text := by
  unfold normList at hk
  rw [List.mem_map] at hk
  obtain ⟨p, hp, hpk⟩ := hk
  have hsome : ((normPairs text).find? (fun q => q.1 == k)).isSome := by
    rw [List.find?_isSome]
    exact ⟨p, hp, by simp [hpk]⟩
  obtain ⟨q, hq⟩ := Option.isSome_iff_exists.1 hsome
  have hq1 : q.1 = k := by
    have hpq := List.find?_some hq
    simpa using hpq
  have hqmem := List.mem_of_find?_eq_some hq
  refine ⟨q.2, ?_, ?_⟩
  · unfold lookupFirst
    rw [hq]
    rfl
  · rw [← hq1]
    simpa using hqmem

theorem addedBlock_eq_removedBlock (o n k : List Char) :
    addedBlock o n k = removedBlock n o k := rfl

theorem length_removedBlock (o n k : List Char) :
    (removedBlock o n k).length = (normList o).count k - (normList n).count k := by
  simp only [removedBlock]
  by_cases h : (normList n).count k < (normList o).count k
  · rw [if_pos h]
    have hk : k ∈ normList o := List.count_pos_iff.1 (by omega)
    obtain ⟨s, hs, hmem⟩ := lookupFirst_of_mem_normList o k hk
    rw [hs]
    simp only [Option.getD_some]
    obtain ⟨hnorm, hkne, hstrip, hnoise⟩ := mem_normPairs o k s hmem
    rw [if_neg hnoise]
    simp
  · rw [if_neg h]
    simp only [List.length_nil]
    omega

theorem mem_removedBlock (o n k : List Char) (e : ChangeEntry)
    (h : e ∈ removedBlock o n k) :
    normalizeLine e.text = k ∧
    lookupFirst (normPairs o) k = some e.text ∧
    e.category = classifyLine e.text ∧
    e.severity = severityFor e.category ∧
    e.category ≠ Category.noise := by
  simp only [removedBlock] at h
  by_cases hlt : (normList n).count k < (normList o).count k
  · rw [if_pos hlt] at h
    have hk : k ∈ normList o := List.count_pos_iff.1 (by omega)
    obtain ⟨s, hs, hmem⟩ := lookupFirst_of_mem_normList o k hk
    rw [hs] at h
    simp only [Option.getD_some] at h
    obtain ⟨hnorm, hkne, hstrip, hnoise⟩ := mem_normPairs o k s hmem
    rw [if_neg hnoise] at h
    have he := List.eq_of_mem_replicate h
    subst he
    exact ⟨hnorm, hs, rfl, rfl, hnoise⟩
  · rw [if_neg hlt] at h
    simp at h

theorem countP_removedBlock (o n k k0 : List Char) :
    ((removedBlock o n k).countP (fun e => normalizeLine e.text == k0))
      = if k = k0 then (normList o).count k - (normList n).count k else 0 := by
  simp only [removedBlock]
  by_cases hlt : (normList n).count k < (normList o).count k
  · rw [if_pos hlt]
    have hk : k ∈ normList o := List.count_pos_iff.1 (by omega)
    obtain ⟨s, hs, hmem⟩ := lookupFirst_of_mem_normList o k hk
    rw [hs]
    simp only [Option.getD_some]
    obtain ⟨hnorm, hkne, hstrip, hnoise⟩ := mem_normPairs o k s hmem
    rw [if_neg hnoise, List.countP_replicate]
    simp only [hnorm]
    by_cases hkk : k = k0
    · rw [if_pos (by simp [hkk]), if_pos hkk]
    · rw [if_neg (by simp [hkk]), if_neg hkk]
  · rw [if_neg hlt]
    simp only [List.countP_nil]
    have hz : (normList o).count k - (normList n).count k = 0 := by omega
    rw [hz]
    simp

theorem countP_flatMap_eq {α β : Type} [DecidableEq β] (K : List β) (f : β → List α)
    (p : α → Bool) (k : β) (g : β → Nat) (hK : K.Nodup)
    (h : ∀ j ∈ K, (f j).countP p = if j = k then g j else 0) :
    (K.flatMap f).countP p = if k ∈ K then g k else 0 := by
  induction K with
  | nil => simp
  | cons j K ih =>
    rw [List.flatMap_cons, List.countP_append]
    obtain ⟨hj, hK2⟩ := List.nodup_cons.1 hK
    have hrest : (K.flatMap f).countP p = if k ∈ K then g k else 0 :=
      ih hK2 (fun i hi => h i (by simp [hi]))
    by_cases hjk : j = k
    · subst hjk
      rw [h j (by simp), if_pos rfl, hrest, if_neg hj, if_pos (by simp)]
      omega
    · rw [h j (by simp), if_neg hjk, hrest]
      by_cases hk : k ∈ K
      · rw [if_pos hk, if_pos (by simp [hk])]
        omega
      · rw [if_neg hk, if_neg (by simp [Ne.symm hjk, hk])]

theorem nodup_allNorms (o n : List Char) : (allNorms o n).Nodup :=
  ((perm_stableSort lexLe _).nodup_iff).2 (List.nodup_dedup _)

theorem mem_allNorms (o n k : List Char) :
    k ∈ allNorms o n ↔ k ∈ normList o ∨ k ∈ normList n := by
  unfold allNorms
  rw [mem_stableSort, List.mem_dedup, List.mem_append]

theorem sorted_allNorms (o n : List Char) :
    List.Pairwise (fun a b => lexLe a b = true) (allNorms o n) :=
  sorted_stableSort lexLe _ lexLe_total lexLe_trans

/-- The `removed` list of the result, before sorting. -/
theorem compare_removed_eq (o n : List Char) :
    (compare o n).removed = stableSort entryLe ((allNorms o n).flatMap (removedBlock o n)) :=
  rfl

theorem compare_added_eq (o n : List Char) :
    (compare o n).added = stableSort entryLe ((allNorms o n).flatMap (addedBlock o n)) :=
  rfl

/-- Count-aware correctness for `removed`, stated over the normalized
line lists. -/
theorem countP_compare_removed (o n k0 : List Char) :
    ((compare o n).removed.countP (fun e => normalizeLine e.text == k0))
      = (normList o).count k0 - (normList n).count k0 := by
  rw [compare_removed_eq]
  rw [(perm_stableSort entryLe _).countP_eq]
  rw [countP_flatMap_eq (allNorms o n) _ _ k0
    (fun j => (normList o).count j - (normList n).count j) (nodup_allNorms o n)
    (fun j _ => countP_removedBlock o n j k0)]
  by_cases hk : k0 ∈ allNorms o n
  · rw [if_pos hk]
  · rw [if_neg hk]
    rw [mem_allNorms] at hk
    have h1 : (normList o).count k0 = 0 :=
      List.count_eq_zero.2 (fun hmem => hk (Or.inl hmem))
    omega

theorem countP_compare_added (o n k0 : List Char) :
    ((compare o n).added.countP (fun e => normalizeLine e.text == k0))
      = (normList n).count k0 - (normList o).count k0 := by
  rw [compare_added_eq]
  rw [(perm_stableSort entryLe _).countP_eq]
  have hbl : ∀ j, addedBlock o n j = removedBlock n o j := fun j => rfl
  rw [countP_flatMap_eq (allNorms o n) _ _ k0
    (fun j => (normList n).count j - (normList o).count j) (nodup_allNorms o n)
    (fun j _ => by rw [hbl j]; exact countP_removedBlock n o j k0)]
  by_cases hk : k0 ∈ allNorms o n
  · rw [if_pos hk]
  · rw [if_neg hk]
    rw [mem_allNorms] at hk
    have h1 : (normList n).count k0 = 0 :=
      List.count_eq_zero.2 (fun hmem => hk (Or.inr hmem))
    omega

/-- Every `removed` entry carries the first-seen stripped original of
its own normalized key, from the old side. -/
theorem compare_removed_first_seen (o n : List Char) (e : ChangeEntry)
    (he : e ∈ (compare o n).removed) :
    lookupFirst (normPairs o) (normalizeLine e.text) = some e.text := by
  rw [compare_removed_eq, mem_stableSort, List.mem_flatMap] at he
  obtain ⟨j, _, hej⟩ := he
  obtain ⟨hnorm, hlook, _, _, _⟩ := mem_removedBlock o n j e hej
  rw [hnorm]
  exact hlook

theorem compare_added_first_seen (o n : List Char) (e : ChangeEntry)
    (he : e ∈ (compare o n).added) :
    lookupFirst (normPairs n) (normalizeLine e.text) = some e.text := by
  rw [compare_added_eq, mem_stableSort, List.mem_flatMap] at he
  obtain ⟨j, _, hej⟩ := he
  rw [addedBlock_eq_removedBlock] at hej
  obtain ⟨hnorm, hlook, _, _, _⟩ := mem_removedBlock n o j e hej
  rw [hnorm]
  exact hlook

/-- The engine's per-key counts agree with counting the non-noise lines
of the text whose normalized form is the (nonempty) key. -/
theorem count_normList_eq (text k : List Char) (hk : k ≠ []) :
    (normList text).count k
      = (splitlines text).countP (fun l => !isNoise l && (normalizeLine l == k)) := by
  unfold normList normPairs
  generalize splitlines text = L
  induction L with
  | nil => rfl
  | cons a L ih =>
    rw [List.filterMap_cons, List.countP_cons]
    by_cases hna : isNoise a
    · have hfa : (if isNoise a then none
          else
            let n := normalizeLine a
            if n.isEmpty then none else some (n, stripChars a))
          = (none : Option (List Char × List Char)) := by
        simp [hna]
      rw [hfa, ih]
      have hpa : (!isNoise a && (normalizeLine a == k)) = false := by
        simp [hna]
      rw [hpa]
      simp
    · have hna2 : isNoise a = false := by simpa using hna
      by_cases hem : (normalizeLine a).isEmpty
      · have hfa : (if isNoise a then none
            else
              let n := normalizeLine a
              if n.isEmpty then none else some (n, stripChars a))
            = (none : Option (List Char × List Char)) := by
          simp [hna2, hem]
        rw [hfa, ih]
        have hnk : (normalizeLine a == k) = false := by
          have hea : normalizeLine a = [] := by
            rcases hx : normalizeLine a with _ | ⟨c, t⟩
            · rfl
            · rw [hx] at hem
              simp at hem
          rw [hea]
          cases k with
          | nil => exact absurd rfl hk
          | cons c t => rfl
        have hpa : (!isNoise a && (normalizeLine a == k)) = false := by
          rw [hnk]
          simp
        rw [hpa]
        simp
      · have hem2 : (normalizeLine a).isEmpty = false := by simpa using hem
        have hfa : (if isNoise a then none
            else
              let n := normalizeLine a
              if n.isEmpty then none else some (n, stripChars a))
            = some (normalizeLine a, stripChars a) := by
          simp [hna2, hem2]
        rw [hfa, List.map_cons, List.count_cons, ih]
        have hpa : (!isNoise a && (normalizeLine a == k)) = (normalizeLine a == k) := by
          rw [hna2]
          simp
        rw [hpa]

/-! ### Severity bookkeeping -/

theorem sevOrder_le_three (s : Severity) : sevOrder s ≤ 3 := by
  cases s <;> simp [sevOrder]

theorem sevOrder_pos (s : Severity) : 1 ≤ sevOrder s := by
  cases s <;> simp [sevOrder]

theorem sevOrder_eq_three_iff (s : Severity) : sevOrder s = 3 ↔ s = Severity.HIGH := by
  cases s <;> simp [sevOrder]

theorem pyMaxSev_none_iff (l : List Severity) : pyMaxSev l = none ↔ l = [] := by
  cases l <;> simp [pyMaxSev]

/-- The Python `max` keeps the first element of maximal rank; in
particular its result is a member of maximal severity order. -/
theorem pyMaxSev_spec (l : List Severity) (s : Severity) (h : pyMaxSev l = some s) :
    s ∈ l ∧ ∀ x ∈ l, sevOrder x ≤ sevOrder s := by
  have hgen : ∀ (L : List Severity) (a0 : Severity),
      ((L.foldl (fun x b => if sevOrder x < sevOrder b then b else x) a0) = a0
        ∨ (L.foldl (fun x b => if sevOrder x < sevOrder b then b else x) a0) ∈ L)
      ∧ sevOrder a0 ≤ sevOrder (L.foldl (fun x b => if sevOrder x < sevOrder b then b else x) a0)
      ∧ ∀ x ∈ L, sevOrder x ≤ sevOrder (L.foldl (fun x b => if sevOrder x < sevOrder b then b else x) a0) := by
    intro L
    induction L with
    | nil =>
      intro a0
      refine ⟨Or.inl rfl, Nat.le_refl _, ?_⟩
      intro x hx
      simp at hx
    | cons b L ih =>
      intro a0
      rw [List.foldl_cons]
      by_cases hb : sevOrder a0 < sevOrder b
      · rw [if_pos hb]
        obtain ⟨h1, h2, h3⟩ := ih b
        refine ⟨?_, le_trans (Nat.le_of_lt hb) h2, ?_⟩
        · rcases h1 with h1 | h1
          · right
            rw [h1]
            exact List.mem_cons_self b L
          · right
            exact List.mem_cons_of_mem b h1
        · intro x hx
          rcases List.mem_cons.1 hx with hxb | hx
          · rw [hxb]
            exact h2
          · exact h3 x hx
      · rw [if_neg hb]
        obtain ⟨h1, h2, h3⟩ := ih a0
        refine ⟨?_, h2, ?_⟩
        · rcases h1 with h1 | h1
          · left
            exact h1
          · right
            exact List.mem_cons_of_mem b h1
        · intro x hx
          rcases List.mem_cons.1 hx with hxb | hx
          · rw [hxb]
            omega
          · exact h3 x hx
  cases l with
  | nil => simp [pyMaxSev] at h
  | cons a l =>
    simp only [pyMaxSev, Option.some.injEq] at h
    obtain ⟨h1, h2, h3⟩ := hgen l a
    rw [h] at h1 h2 h3
    constructor
    · rcases h1 with h1 | h1
      · rw [h1]
        exact List.mem_cons_self a l
      · exact List.mem_cons_of_mem a h1
    · intro x hx
      rcases List.mem_cons.1 hx with hxa | hx
      · rw [hxa]
        exact h2
      · exact h3 x hx

/-! ### Structural validator bookkeeping -/

theorem mem_gapStep (st : Option Nat × List StructuralWarning) (line : List Char)
    (w : StructuralWarning) (hw : w ∈ (gapStep st line).2) :
    w ∈ st.2 ∨ (w.severity = Severity.HIGH ∧ w.wtype = WarnType.NUMBERING_GAP) := by
  unfold gapStep at hw
  split at hw
  · exact Or.inl hw
  · split at hw
    · exact Or.inl hw
    · split at hw
      · split at hw
        · simp only at hw
          rcases List.mem_append.1 hw with h1 | h1
          · exact Or.inl h1
          · rw [List.mem_map] at h1
            obtain ⟨m, _, hm⟩ := h1
            rw [← hm]
            exact Or.inr ⟨rfl, rfl⟩
        · exact Or.inl hw
      · exact Or.inl hw

theorem mem_detectNumberingGaps (t : List Char) (w : StructuralWarning)
    (hw : w ∈ detectNumberingGaps t) :
    w.severity = Severity.HIGH ∧ w.wtype = WarnType.NUMBERING_GAP := by
  unfold detectNumberingGaps at hw
  have hgen : ∀ (L : List (List Char)) (st : Option Nat × List StructuralWarning),
      (∀ v ∈ st.2, v.severity = Severity.HIGH ∧ v.wtype = WarnType.NUMBERING_GAP) →
      ∀ v ∈ (L.foldl gapStep st).2,
        v.severity = Severity.HIGH ∧ v.wtype = WarnType.NUMBERING_GAP := by
    intro L
    induction L with
    | nil => intro st h; exact h
    | cons a L ih =>
      intro st h
      rw [List.foldl_cons]
      apply ih
      intro v hv
      rcases mem_gapStep st a v hv with h1 | h1
      · exact h v h1
      · exact h1
  exact hgen _ _ (by intro v hv; simp at hv) w hw

theorem mem_detectMissingSections (t : List Char) (w : StructuralWarning)
    (hw : w ∈ detectMissingSections t) :
    w.severity = Severity.HIGH ∧ w.wtype = WarnType.MISSING_SECTION := by
  simp only [detectMissingSections] at hw
  split at hw
  · simp at hw
  · rcases List.mem_append.1 hw with h1 | h1
    · split at h1
      · simp at h1
      · rw [List.mem_singleton] at h1
        rw [h1]
        exact ⟨rfl, rfl⟩
    · split at h1
      · simp at h1
      · rw [List.mem_singleton] at h1
        rw [h1]
        exact ⟨rfl, rfl⟩

theorem mem_detectMissingPrereqs (o n : List Char) (w : StructuralWarning)
    (hw : w ∈ detectMissingPrereqs o n) :
    w.severity = Severity.HIGH ∧ w.wtype = WarnType.MISSING_PREREQUISITE := by
  unfold detectMissingPrereqs at hw
  rw [List.mem_map] at hw
  obtain ⟨m, _, hm⟩ := hw
  rw [← hm]
  exact ⟨rfl, rfl⟩

theorem mem_validateStructure_severity (o n : List Char) (w : StructuralWarning)
    (hw : w ∈ validateStructure o n) : w.severity = Severity.HIGH := by
  unfold validateStructure at hw
  rcases List.mem_append.1 hw with h1 | h1
  · have h2 := List.mem_of_mem_filter h1
    rcases List.mem_append.1 h2 with h3 | h3
    · exact (mem_detectNumberingGaps n w h3).1
    · exact (mem_detectMissingSections n w h3).1
  · exact (mem_detectMissingPrereqs o n w h1).1

/-- Since every structural warning is HIGH, the final severity sort
leaves the list unchanged. -/
theorem compare_structural_eq (o n : List Char) :
    (compare o n).structural_warnings = validateStructure o n := by
  show stableSort warnLe (validateStructure o n) = validateStructure o n
  apply stableSort_eq_self
  intro x hx y hy
  unfold warnLe
  rw [mem_validateStructure_severity o n x hx, mem_validateStructure_severity o n y hy]
  simp

theorem contains_eq_true_iff {α : Type} [BEq α] [LawfulBEq α] (l : List α) (a : α) :
    l.contains a = true ↔ a ∈ l := by
  simp [List.contains, List.elem_iff]

/-! ### Reflexivity helpers -/

theorem removedBlock_self (o k : List Char) : removedBlock o o k = [] := by
  simp only [removedBlock]
  rw [if_neg (by omega)]

theorem validateStructure_self (t : List Char) : validateStructure t t = [] := by
  unfold validateStructure
  rw [List.append_eq_nil]
  constructor
  · rw [List.filter_eq_nil_iff]
    intro w hw
    have hmsg : w.message ∈ (detectNumberingGaps t ++ detectMissingSections t).map
        (fun v => v.message) := List.mem_map_of_mem _ hw
    rw [(contains_eq_true_iff _ _).2 hmsg]
    simp
  · unfold detectMissingPrereqs
    have hfil : (prereqSetList t).filter
        (fun x => !(prereqSetList t).contains x) = [] := by
      rw [List.filter_eq_nil_iff]
      intro x hx
      rw [(contains_eq_true_iff _ _).2 hx]
      simp
    rw [hfil]
    rfl

/-! ### `has_changes` and the result record -/

theorem compare_has_changes_eq (o n : List Char) :
    (compare o n).has_changes
      = (!((allNorms o n).flatMap (addedBlock o n)).isEmpty
          || !((allNorms o n).flatMap (removedBlock o n)).isEmpty) := rfl

theorem compare_max_severity_eq (o n : List Char) :
    (compare o n).max_severity
      = pyMaxSev ((((allNorms o n).flatMap (addedBlock o n)).map (fun c => c.severity))
          ++ (((allNorms o n).flatMap (removedBlock o n)).map (fun c => c.severity))
          ++ ((validateStructure o n).map (fun w => w.severity))) := rfl

/-! ### Severity sortedness of the result lists -/

theorem entryLe_total (a b : ChangeEntry) : entryLe a b = true ∨ entryLe b a = true := by
  unfold entryLe
  by_cases h : sevOrder b.severity ≤ sevOrder a.severity
  · left
    simpa using h
  · right
    simp only [decide_eq_true_eq]
    omega

theorem entryLe_trans (a b c : ChangeEntry) :
    entryLe a b = true → entryLe b c = true → entryLe a c = true := by
  unfold entryLe
  simp only [decide_eq_true_eq]
  omega

theorem warnLe_total (a b : StructuralWarning) : warnLe a b = true ∨ warnLe b a = true := by
  unfold warnLe
  by_cases h : sevOrder b.severity ≤ sevOrder a.severity
  · left
    simpa using h
  · right
    simp only [decide_eq_true_eq]
    omega

theorem warnLe_trans (a b c : StructuralWarning) :
    warnLe a b = true → warnLe b c = true → warnLe a c = true := by
  unfold warnLe
  simp only [decide_eq_true_eq]
  omega

theorem compare_added_sorted (o n : List Char) :
    List.Pairwise (fun a b => entryLe a b = true) (compare o n).added :=
  sorted_stableSort entryLe _ entryLe_total entryLe_trans

theorem compare_removed_sorted (o n : List Char) :
    List.Pairwise (fun a b => entryLe a b = true) (compare o n).removed :=
  sorted_stableSort entryLe _ entryLe_total entryLe_trans

theorem compare_structural_sorted (o n : List Char) :
    List.Pairwise (fun a b => warnLe a b = true) (compare o n).structural_warnings :=
  sorted_stableSort warnLe _ warnLe_total warnLe_trans

/-! ### Lexicographic ordering of equal-severity diff entries -/

theorem entryLe_false_sev_ne (x y : ChangeEntry) (h : entryLe x y = false) :
    y.severity ≠ x.severity := by
  unfold entryLe at h
  simp only [decide_eq_false_iff_not] at h
  intro he
  rw [he] at h
  omega

theorem compare_removed_pairwise_lex (o n : List Char) :
    List.Pairwise (fun e1 e2 => e1.severity = e2.severity →
      lexLe (normalizeLine e1.text) (normalizeLine e2.text) = true)
      (compare o n).removed := by
  rw [compare_removed_eq]
  apply pairwise_stableSort
  · intro x y hxy hsev
    exact absurd hsev (entryLe_false_sev_ne x y hxy)
  · rw [List.pairwise_flatMap]
    constructor
    · intro j _
      apply List.pairwise_of_forall_mem_list
      intro a ha b hb _
      rw [(mem_removedBlock o n j a ha).1, (mem_removedBlock o n j b hb).1]
      exact lexLe_refl j
    · apply List.Pairwise.imp ?_ (sorted_allNorms o n)
      intro j1 j2 hj12 x hx y hy _
      rw [(mem_removedBlock o n j1 x hx).1, (mem_removedBlock o n j2 y hy).1]
      exact hj12

theorem compare_added_pairwise_lex (o n : List Char) :
    List.Pairwise (fun e1 e2 => e1.severity = e2.severity →
      lexLe (normalizeLine e1.text) (normalizeLine e2.text) = true)
      (compare o n).added := by
  rw [compare_added_eq]
  apply pairwise_stableSort
  · intro x y hxy hsev
    exact absurd hsev (entryLe_false_sev_ne x y hxy)
  · rw [List.pairwise_flatMap]
    constructor
    · intro j _
      apply List.pairwise_of_forall_mem_list
      intro a ha b hb _
      rw [addedBlock_eq_removedBlock] at ha hb
      rw [(mem_removedBlock n o j a ha).1, (mem_removedBlock n o j b hb).1]
      exact lexLe_refl j
    · apply List.Pairwise.imp ?_ (sorted_allNorms o n)
      intro j1 j2 hj12 x hx y hy _
      rw [addedBlock_eq_removedBlock] at hx hy
      rw [(mem_removedBlock n o j1 x hx).1, (mem_removedBlock n o j2 y hy).1]
      exact hj12

/-! ### Cosmetic invariance helpers -/

theorem filterMap_congr_forall₂ {α β : Type} (R : α → α → Prop) (g : α → Option β)
    (hg : ∀ a b, R a b → g a = g b) (L1 L2 : List α) (h : List.Forall₂ R L1 L2) :
    L1.filterMap g = L2.filterMap g := by
  induction h with
  | nil => rfl
  | @cons a b l1 l2 hab _ ih =>
    rw [List.filterMap_cons, List.filterMap_cons, hg a b hab]
    cases g b with
    | none => exact ih
    | some x => rw [ih]

/-- Corresponding lines with equal normalized form and equal noise
status produce the same normalized key stream. -/
theorem normList_eq_of_forall₂ (o n : List Char)
    (h : List.Forall₂ (fun l1 l2 => normalizeLine l1 = normalizeLine l2
        ∧ isNoise l1 = isNoise l2) (splitlines o) (splitlines n)) :
    normList o = normList n := by
  have hrw : ∀ t : List Char, normList t = (splitlines t).filterMap
      (fun line => if isNoise line then none
        else if (normalizeLine line).isEmpty then none else some (normalizeLine line)) := by
    intro t
    unfold normList normPairs
    rw [List.map_filterMap]
    apply List.filterMap_congr
    intro line _
    by_cases hn : isNoise line
    · simp [hn]
    · have hn2 : isNoise line = false := by simpa using hn
      by_cases he : (normalizeLine line).isEmpty
      · simp [hn2, he]
      · have he2 : (normalizeLine line).isEmpty = false := by simpa using he
        simp [hn2, he2]
  rw [hrw o, hrw n]
  apply filterMap_congr_forall₂ _ _ _ _ _ h
  intro a b hab
  rw [hab.1, hab.2]

/-! ### Missing-prerequisite counting -/

theorem prereqMessage_inj (m k : List Char) (h : prereqMessage m = prereqMessage k) :
    m = k := by
  unfold prereqMessage at h
  have h1 := List.append_cancel_right h
  exact List.append_cancel_left h1

theorem nodup_prereqSetList (t : List Char) : (prereqSetList t).Nodup :=
  List.nodup_dedup _

theorem countP_decide_eq {α : Type} [DecidableEq α] (l : List α) (hnd : l.Nodup) (k : α) :
    l.countP (fun m => decide (m = k)) = if k ∈ l then 1 else 0 := by
  induction l with
  | nil => simp
  | cons a l ih =>
    obtain ⟨ha, hl⟩ := List.nodup_cons.1 hnd
    rw [List.countP_cons]
    by_cases hak : a = k
    · subst hak
      have h0 : l.countP (fun m => decide (m = a)) = 0 := by
        rw [List.countP_eq_zero]
        intro m hm
        simp only [decide_eq_true_eq]
        intro hma
        rw [hma] at hm
        exact ha hm
      rw [h0, if_pos (List.mem_cons_self a l)]
      simp
    · rw [ih hl]
      have hiff : k ∈ a :: l ↔ k ∈ l := by
        rw [List.mem_cons]
        constructor
        · intro h
          rcases h with h | h
          · exact absurd h.symm hak
          · exact h
        · exact Or.inr
      by_cases hk : k ∈ l
      · rw [if_pos hk, if_pos (hiff.2 hk)]
        simp [hak]
      · rw [if_neg hk, if_neg (fun hc => hk (hiff.1 hc))]
        simp [hak]

/-- The number of MISSING_PREREQUISITE warnings carrying the message for
a given normalized line `k`: one when `k` is a prerequisite of the old
text only, zero otherwise. -/
theorem countP_validateStructure_prereq (o n k : List Char) :
    ((validateStructure o n).countP
      (fun w => (w.wtype == WarnType.MISSING_PREREQUISITE)
        && (w.message == prereqMessage k)))
    = if k ∈ prereqSetList o ∧ k ∉ prereqSetList n then 1 else 0 := by
  unfold validateStructure
  rw [List.countP_append]
  have hfil : ((detectNumberingGaps n ++ detectMissingSections n).filter
      (fun w => !((detectNumberingGaps o ++ detectMissingSections o).map
        (fun v => v.message)).contains w.message)).countP
      (fun w => (w.wtype == WarnType.MISSING_PREREQUISITE)
        && (w.message == prereqMessage k)) = 0 := by
    rw [List.countP_eq_zero]
    intro w hw
    have h2 := List.mem_of_mem_filter hw
    have hty : w.wtype ≠ WarnType.MISSING_PREREQUISITE := by
      rcases List.mem_append.1 h2 with h3 | h3
      · rw [(mem_detectNumberingGaps n w h3).2]
        simp
      · rw [(mem_detectMissingSections n w h3).2]
        simp
    simp [hty]
  rw [hfil]
  rw [Nat.zero_add]
  unfold detectMissingPrereqs
  rw [List.countP_map]
  have hcp : ((prereqSetList o).filter (fun x => !(prereqSetList n).contains x)).countP
      ((fun w => (w.wtype == WarnType.MISSING_PREREQUISITE)
        && (w.message == prereqMessage k)) ∘
        (fun m => (⟨WarnType.MISSING_PREREQUISITE, Severity.HIGH, prereqMessage m⟩ :
          StructuralWarning)))
      = ((prereqSetList o).filter (fun x => !(prereqSetList n).contains x)).countP
        (fun m => decide (m = k)) := by
    apply List.countP_congr
    intro m _
    simp only [Function.comp_apply, beq_self_eq_true, Bool.true_and]
    by_cases hmk : m = k
    · subst hmk
      simp
    · have hne : prereqMessage m ≠ prereqMessage k := fun hc => hmk (prereqMessage_inj m k hc)
      simp [hmk, hne]
  rw [hcp]
  have hnd : ((prereqSetList o).filter (fun x => !(prereqSetList n).contains x)).Nodup :=
    List.Nodup.filter _ (nodup_prereqSetList o)
  rw [countP_decide_eq _ hnd k]
  by_cases hmem : k ∈ (prereqSetList o).filter (fun x => !(prereqSetList n).contains x)
  · rw [if_pos hmem]
    rw [List.mem_filter] at hmem
    have hk2 : k ∉ prereqSetList n := by
      intro hc
      have hcm := hmem.2
      rw [(contains_eq_true_iff _ _).2 hc] at hcm
      simp at hcm
    rw [if_pos ⟨hmem.1, hk2⟩]
  · rw [if_neg hmem]
    by_cases hcond : k ∈ prereqSetList o ∧ k ∉ prereqSetList n
    · exfalso
      apply hmem
      rw [List.mem_filter]
      refine ⟨hcond.1, ?_⟩
      have hcf : (prereqSetList n).contains k = false := by
        cases hcc : (prereqSetList n).contains k
        · rfl
        · exact absurd ((contains_eq_true_iff _ _).1 hcc) hcond.2
      rw [hcf]
      rfl
    · rw [if_neg hcond]

theorem pyMaxSev_eq_high (l : List Severity) (h : Severity.HIGH ∈ l) :
    pyMaxSev l = some Severity.HIGH := by
  cases hms : pyMaxSev l with
  | none =>
    rw [pyMaxSev_none_iff] at hms
    rw [hms] at h
    simp at h
  | some s =>
    obtain ⟨_, hmax⟩ := pyMaxSev_spec l s hms
    have h3 := hmax _ h
    rw [show sevOrder Severity.HIGH = 3 from rfl] at h3
    have h5 := sevOrder_le_three s
    have h4 : sevOrder s = 3 := by omega
    rw [(sevOrder_eq_three_iff s).1 h4]

/-! ## The claims -/

/-- Claim C2: for every pair of input strings, `has_changes` is true if
and only if the `added` list or the `removed` list is non-empty;
structural warnings alone never make `has_changes` true. -/
theorem claim_C2 (o n : List Char) :
    (compare o n).has_changes = true ↔
      ((compare o n).added ≠ [] ∨ (compare o n).removed ≠ []) := by
  rw [compare_has_changes_eq]
  rw [compare_added_eq, compare_removed_eq, Ne, Ne,
    stableSort_eq_nil_iff, stableSort_eq_nil_iff]
  rw [Bool.or_eq_true, Bool.not_eq_true', Bool.not_eq_true',
    List.isEmpty_eq_false, List.isEmpty_eq_false]

/-- Claim C2, witnessed at a concrete input with a removal. -/
theorem claim_C2_witness :
    (compare "Choose A.".data "".data).has_changes = true ↔
      ((compare "Choose A.".data "".data).added ≠ []
        ∨ (compare "Choose A.".data "".data).removed ≠ []) :=
  claim_C2 "Choose A.".data "".data

/-- Claim C4: reflexivity — comparing a text with itself yields no
changes, no structural warnings and no severity. -/
theorem claim_C4 (T : List Char) :
    compare T T = ⟨false, [], [], [], none⟩ := by
  have hrem : (allNorms T T).flatMap (removedBlock T T) = [] := by
    rw [List.flatMap_eq_nil_iff]
    intro k _
    exact removedBlock_self T k
  have hadd : (allNorms T T).flatMap (addedBlock T T) = [] := by
    rw [List.flatMap_eq_nil_iff]
    intro k _
    rw [addedBlock_eq_removedBlock]
    exact removedBlock_self T k
  have hsw := validateStructure_self T
  simp only [compare, hrem, hadd, hsw]
  rfl

/-- Claim C10: every structural warning produced by the three detectors
carries severity HIGH, and a result with a non-empty warning list has
`max_severity = HIGH`. -/
theorem claim_C10 (o n : List Char) :
    (∀ w ∈ (compare o n).structural_warnings, w.severity = Severity.HIGH)
    ∧ ((compare o n).structural_warnings ≠ [] →
        (compare o n).max_severity = some Severity.HIGH) := by
  constructor
  · intro w hw
    rw [compare_structural_eq] at hw
    exact mem_validateStructure_severity o n w hw
  · intro hne
    rw [compare_structural_eq] at hne
    rw [compare_max_severity_eq]
    apply pyMaxSev_eq_high
    obtain ⟨w0, hw0mem⟩ := List.exists_mem_of_ne_nil _ hne
    have hw0 := mem_validateStructure_severity o n w0 hw0mem
    apply List.mem_append_right
    rw [List.mem_map]
    exact ⟨w0, hw0mem, hw0⟩

/-- Claim C10, witnessed at a concrete input with a numbering gap. -/
theorem claim_C10_witness :
    (compare "".data "1. a\n3. b".data).max_severity = some Severity.HIGH :=
  (claim_C10 "".data "1. a\n3. b".data).2 (by decide)

/-- Claim C3: `max_severity` is absent exactly when all three output
lists are empty; when present it is a severity occurring in the outputs
and dominates every other one (HIGH > MEDIUM > LOW); and within each
output list every HIGH element is sorted before every lower one. -/
theorem claim_C3 (o n : List Char) :
    ((compare o n).max_severity = none ↔
      ((compare o n).added = [] ∧ (compare o n).removed = []
        ∧ (compare o n).structural_warnings = []))
    ∧ (∀ s, (compare o n).max_severity = some s →
        (s ∈ ((compare o n).added.map (fun c => c.severity)
            ++ (compare o n).removed.map (fun c => c.severity)
            ++ (compare o n).structural_warnings.map (fun w => w.severity))
          ∧ ∀ x ∈ ((compare o n).added.map (fun c => c.severity)
            ++ (compare o n).removed.map (fun c => c.severity)
            ++ (compare o n).structural_warnings.map (fun w => w.severity)),
              sevOrder x ≤ sevOrder s))
    ∧ List.Pairwise (fun a b => b.severity = Severity.HIGH →
        a.severity = Severity.HIGH) (compare o n).added
    ∧ List.Pairwise (fun a b => b.severity = Severity.HIGH →
        a.severity = Severity.HIGH) (compare o n).removed
    ∧ List.Pairwise (fun a b => b.severity = Severity.HIGH →
        a.severity = Severity.HIGH) (compare o n).structural_warnings := by
  have hpermsev : List.Perm
      ((((allNorms o n).flatMap (addedBlock o n)).map (fun c => c.severity))
        ++ (((allNorms o n).flatMap (removedBlock o n)).map (fun c => c.severity))
        ++ ((validateStructure o n).map (fun w => w.severity)))
      ((compare o n).added.map (fun c => c.severity)
        ++ (compare o n).removed.map (fun c => c.severity)
        ++ (compare o n).structural_warnings.map (fun w => w.severity)) := by
    rw [compare_added_eq, compare_removed_eq, compare_structural_eq]
    apply List.Perm.append
    · apply List.Perm.append
      · exact ((perm_stableSort entryLe _).map _).symm
      · exact ((perm_stableSort entryLe _).map _).symm
    · exact List.Perm.refl _
  refine ⟨?_, ?_, ?_, ?_, ?_⟩
  · rw [compare_max_severity_eq, pyMaxSev_none_iff]
    rw [compare_added_eq, compare_removed_eq, compare_structural_eq,
      stableSort_eq_nil_iff, stableSort_eq_nil_iff]
    constructor
    · intro h
      rcases List.append_eq_nil.1 h with ⟨h1, h3⟩
      rcases List.append_eq_nil.1 h1 with ⟨ha, hr⟩
      exact ⟨by simpa using List.map_eq_nil_iff.1 ha,
        by simpa using List.map_eq_nil_iff.1 hr,
        by simpa using List.map_eq_nil_iff.1 h3⟩
    · intro ⟨ha, hr, h3⟩
      rw [ha, hr, h3]
      rfl
  · intro s hs
    rw [compare_max_severity_eq] at hs
    obtain ⟨hmem, hmax⟩ := pyMaxSev_spec _ s hs
    constructor
    · exact hpermsev.mem_iff.1 hmem
    · intro x hx
      exact hmax x (hpermsev.mem_iff.2 hx)
  · apply List.Pairwise.imp ?_ (compare_added_sorted o n)
    intro a b hab hbh
    unfold entryLe at hab
    simp only [decide_eq_true_eq] at hab
    rw [hbh] at hab
    have h5 := sevOrder_le_three a.severity
    exact (sevOrder_eq_three_iff a.severity).1 (by
      rw [show sevOrder Severity.HIGH = 3 from rfl] at hab
      omega)
  · apply List.Pairwise.imp ?_ (compare_removed_sorted o n)
    intro a b hab hbh
    unfold entryLe at hab
    simp only [decide_eq_true_eq] at hab
    rw [hbh] at hab
    have h5 := sevOrder_le_three a.severity
    exact (sevOrder_eq_three_iff a.severity).1 (by
      rw [show sevOrder Severity.HIGH = 3 from rfl] at hab
      omega)
  · apply List.Pairwise.imp ?_ (compare_structural_sorted o n)
    intro a b hab hbh
    unfold warnLe at hab
    simp only [decide_eq_true_eq] at hab
    rw [hbh] at hab
    have h5 := sevOrder_le_three a.severity
    exact (sevOrder_eq_three_iff a.severity).1 (by
      rw [show sevOrder Severity.HIGH = 3 from rfl] at hab
      omega)

/-- Claim C3, witnessed at a concrete input whose result has a HIGH
removal and a MEDIUM addition. -/
theorem claim_C3_witness :
    Severity.HIGH ∈
      ((compare "Choose Save.\nnote: a".data "note: a\nnote: a".data).added.map
          (fun c => c.severity)
        ++ (compare "Choose Save.\nnote: a".data "note: a\nnote: a".data).removed.map
          (fun c => c.severity)
        ++ (compare "Choose Save.\nnote: a".data "note: a\nnote: a".data).structural_warnings.map
          (fun w => w.severity))
    ∧ ∀ x ∈ ((compare "Choose Save.\nnote: a".data "note: a\nnote: a".data).added.map
          (fun c => c.severity)
        ++ (compare "Choose Save.\nnote: a".data "note: a\nnote: a".data).removed.map
          (fun c => c.severity)
        ++ (compare "Choose Save.\nnote: a".data "note: a\nnote: a".data).structural_warnings.map
          (fun w => w.severity)), sevOrder x ≤ sevOrder Severity.HIGH :=
  (claim_C3 "Choose Save.\nnote: a".data "note: a\nnote: a".data).2.1
    Severity.HIGH (by decide)

/-- Claim C1: count-aware diff correctness — for every nonempty
normalized key, `removed` carries exactly `old_count - new_count`
entries for that key (truncated at zero) and `added` exactly
`new_count - old_count`, where the counts range over non-noise lines
with that normalized form; every entry carries the first-seen stripped
original of its key from the losing/gaining side; and the triple
"Choose Save." versus single "Choose Save." input yields exactly two
removed entries and no added ones. -/
theorem claim_C1 :
    (∀ o n k : List Char, k ≠ [] →
      ((compare o n).removed.countP (fun e => normalizeLine e.text == k)
          = (splitlines o).countP (fun l => !isNoise l && (normalizeLine l == k))
            - (splitlines n).countP (fun l => !isNoise l && (normalizeLine l == k)))
      ∧ ((compare o n).added.countP (fun e => normalizeLine e.text == k)
          = (splitlines n).countP (fun l => !isNoise l && (normalizeLine l == k))
            - (splitlines o).countP (fun l => !isNoise l && (normalizeLine l == k)))
      ∧ (∀ e ∈ (compare o n).removed,
          lookupFirst (normPairs o) (normalizeLine e.text) = some e.text)
      ∧ (∀ e ∈ (compare o n).added,
          lookupFirst (normPairs n) (normalizeLine e.text) = some e.text))
    ∧ ((compare "Choose Save.\nChoose Save.\nChoose Save.".data "Choose Save.".data).removed
        = [⟨"Choose Save.".data, Severity.HIGH, Category.instruction⟩,
           ⟨"Choose Save.".data, Severity.HIGH, Category.instruction⟩]
      ∧ (compare "Choose Save.\nChoose Save.\nChoose Save.".data "Choose Save.".data).added
        = []) := by
  constructor
  · intro o n k hk
    refine ⟨?_, ?_, compare_removed_first_seen o n, compare_added_first_seen o n⟩
    · rw [countP_compare_removed, count_normList_eq o k hk, count_normList_eq n k hk]
    · rw [countP_compare_added, count_normList_eq n k hk, count_normList_eq o k hk]
  · exact ⟨by decide, by decide⟩

/-- Claim C1, witnessed at the "Choose Save." inputs with key
`"choose save."`. -/
theorem claim_C1_witness :
    (compare "Choose Save.\nChoose Save.\nChoose Save.".data "Choose Save.".data).removed.countP
        (fun e => normalizeLine e.text == "choose save.".data)
      = (splitlines "Choose Save.\nChoose Save.\nChoose Save.".data).countP
          (fun l => !isNoise l && (normalizeLine l == "choose save.".data))
        - (splitlines "Choose Save.".data).countP
          (fun l => !isNoise l && (normalizeLine l == "choose save.".data)) :=
  (claim_C1.1 "Choose Save.\nChoose Save.\nChoose Save.".data "Choose Save.".data
    "choose save.".data (by decide)).1

/-- Claim C6: numbering-gap detection — a line numbered 1 resets the
tracker and emits nothing; a line numbered `num` with tracked
predecessor `p` and `num > p + 1` emits one HIGH NUMBERING_GAP warning
per integer strictly between `p` and `num`, with the specified message;
and the concrete "1. a / 2. b / 3. c" versus "1. a / 2. b / 4. c" pair
yields exactly one warning with message
"Step 3 is missing (numbering jumps from 2 to 4)". -/
theorem claim_C6 :
    (∀ (st : Option Nat × List StructuralWarning) (line : List Char),
      (stepNumOf (stripChars line) = some 1 → gapStep st line = (some 1, st.2))
      ∧ (∀ num p, stepNumOf (stripChars line) = some num → num ≠ 1 → st.1 = some p →
          p + 1 < num →
          gapStep st line = (some num, st.2 ++ (List.range' (p + 1) (num - (p + 1))).map
            (fun m => ⟨WarnType.NUMBERING_GAP, Severity.HIGH, gapMessage m p num⟩))))
    ∧ (compare "1. a\n2. b\n3. c".data "1. a\n2. b\n4. c".data).structural_warnings
        = [⟨WarnType.NUMBERING_GAP, Severity.HIGH,
            "Step 3 is missing (numbering jumps from 2 to 4)".data⟩] := by
  constructor
  · intro st line
    constructor
    · intro h1
      simp [gapStep, h1]
    · intro num p hnum hne hp hlt
      simp only [gapStep, hnum, hp]
      rw [if_neg hne, if_pos hlt]
  · decide

/-- Claim C6, witnessed: a line "1. x" resets the tracker from any
state and emits nothing. -/
theorem claim_C6_witness :
    gapStep ((some 7 : Option Nat), ([] : List StructuralWarning)) "1. x".data
      = (some 1, []) :=
  (claim_C6.1 ((some 7 : Option Nat), ([] : List StructuralWarning)) "1. x".data).1
    (by decide)

/-- Claim C7: suppression policy — the gap and section detectors run on
both texts; a new-text warning is kept exactly when its message is not
among the old text's warning messages; missing-prerequisite warnings
are always retained. -/
theorem claim_C7 (o n : List Char) :
    ((compare o n).structural_warnings
      = ((detectNumberingGaps n ++ detectMissingSections n).filter
          (fun w => !((detectNumberingGaps o ++ detectMissingSections o).map
            (fun v => v.message)).contains w.message))
        ++ detectMissingPrereqs o n)
    ∧ (∀ w ∈ detectNumberingGaps n ++ detectMissingSections n,
        (w ∈ (compare o n).structural_warnings ↔
          w.message ∉ (detectNumberingGaps o ++ detectMissingSections o).map
            (fun v => v.message)))
    ∧ (∀ w ∈ detectMissingPrereqs o n, w ∈ (compare o n).structural_warnings) := by
  have heq : (compare o n).structural_warnings = validateStructure o n :=
    compare_structural_eq o n
  refine ⟨by rw [heq]; rfl, ?_, ?_⟩
  · intro w hw
    rw [heq]
    unfold validateStructure
    constructor
    · intro hmem hmsg
      rcases List.mem_append.1 hmem with h1 | h1
      · have h2 := (List.mem_filter.1 h1).2
        rw [(contains_eq_true_iff _ _).2 hmsg] at h2
        simp at h2
      · have hty := (mem_detectMissingPrereqs o n w h1).2
        rcases List.mem_append.1 hw with h2 | h2
        · have h3 := (mem_detectNumberingGaps n w h2).2
          rw [hty] at h3
          cases h3
        · have h3 := (mem_detectMissingSections n w h2).2
          rw [hty] at h3
          cases h3
    · intro hmsg
      apply List.mem_append_left
      rw [List.mem_filter]
      refine ⟨hw, ?_⟩
      have hcf : ((detectNumberingGaps o ++ detectMissingSections o).map
          (fun v => v.message)).contains w.message = false := by
        cases hcc : ((detectNumberingGaps o ++ detectMissingSections o).map
            (fun v => v.message)).contains w.message
        · rfl
        · exact absurd ((contains_eq_true_iff _ _).1 hcc) hmsg
      rw [hcf]
      rfl
  · intro w hw
    rw [heq]
    unfold validateStructure
    exact List.mem_append_right _ hw

/-- Claim C7, witnessed: a fresh numbering-gap warning of the new text
is retained, and a missing-prerequisite warning is retained. -/
theorem claim_C7_witness :
    ((⟨WarnType.NUMBERING_GAP, Severity.HIGH,
        "Step 2 is missing (numbering jumps from 1 to 3)".data⟩ : StructuralWarning)
      ∈ (compare "".data "1. a\n3. b".data).structural_warnings ↔
      ("Step 2 is missing (numbering jumps from 1 to 3)".data ∉
        (detectNumberingGaps "".data ++ detectMissingSections "".data).map
          (fun v => v.message)))
    ∧ (⟨WarnType.MISSING_PREREQUISITE, Severity.HIGH,
        "Prerequisite removed: \"you must x\"".data⟩ : StructuralWarning)
      ∈ (compare "You must x".data "".data).structural_warnings := by
  constructor
  · exact (claim_C7 "".data "1. a\n3. b".data).2.1 _ (by decide)
  · exact (claim_C7 "You must x".data "".data).2.2 _ (by decide)

/-- Claim C8 counterexample: normalization lowercases but does not
strip the "you must" prefix, so the single warning's message quotes
"you must have admin access.", not "have admin access." as the claim
asserts. -/
theorem claim_C8_counterexample :
    (compare "You must have admin access.".data "".data).structural_warnings
      = [⟨WarnType.MISSING_PREREQUISITE, Severity.HIGH,
          "Prerequisite removed: \"you must have admin access.\"".data⟩]
    ∧ "Prerequisite removed: \"have admin access.\"".data ∉
        ((compare "You must have admin access.".data "".data).structural_warnings.map
          (fun w => w.message)) := by
  exact ⟨by decide, by decide⟩

/-- Claim C8 (amended): for every normalized line `k`, the result
carries exactly one HIGH MISSING_PREREQUISITE warning with message
`Prerequisite removed: "k"` when `k` is classified prerequisite in the
old text and not in the new, and none otherwise; the normalized text of
"You must have admin access." is "you must have admin access." (the
"you must" prefix is kept, only case and whitespace are normalized). -/
theorem claim_C8 :
    (∀ o n k : List Char, ((compare o n).structural_warnings.countP
        (fun w => (w.wtype == WarnType.MISSING_PREREQUISITE)
          && (w.message == prereqMessage k)))
      = if k ∈ prereqSetList o ∧ k ∉ prereqSetList n then 1 else 0)
    ∧ (∀ o n : List Char, ∀ w ∈ detectMissingPrereqs o n,
        w.severity = Severity.HIGH ∧ w.wtype = WarnType.MISSING_PREREQUISITE)
    ∧ normalizeLine "You must have admin access.".data
        = "you must have admin access.".data
    ∧ (compare "You must have admin access.".data "".data).structural_warnings
      = [⟨WarnType.MISSING_PREREQUISITE, Severity.HIGH,
          prereqMessage "you must have admin access.".data⟩] := by
  refine ⟨?_, ?_, by decide, by decide⟩
  · intro o n k
    rw [compare_structural_eq]
    exact countP_validateStructure_prereq o n k
  · intro o n w hw
    exact mem_detectMissingPrereqs o n w hw

/-- Claim C8, witnessed at the admin-access example with its true
normalized key. -/
theorem claim_C8_witness :
    (⟨WarnType.MISSING_PREREQUISITE, Severity.HIGH,
      prereqMessage "you must have admin access.".data⟩ : StructuralWarning).severity
        = Severity.HIGH
    ∧ (⟨WarnType.MISSING_PREREQUISITE, Severity.HIGH,
      prereqMessage "you must have admin access.".data⟩ : StructuralWarning).wtype
        = WarnType.MISSING_PREREQUISITE :=
  claim_C8.2.1 "You must have admin access.".data "".data _ (by decide)

/-- Claim C5 counterexample: a whitespace-only edit (two spaces to one)
turns the table-separator noise line "---  ---" into the non-noise line
"--- ---", so the diff reports an addition even though the texts are
cosmetic variants. -/
theorem claim_C5_counterexample :
    Cosmetic "---  ---".data "--- ---".data
    ∧ ¬((compare "---  ---".data "--- ---".data).added = []
        ∧ (compare "---  ---".data "--- ---".data).removed = []) := by
  constructor
  · exact Relation.ReflTransGen.single
      (CosmeticStep.ws "---".data "  ".data " ".data "---".data (by decide) (by decide))
  · intro h
    exact absurd h.1 (by decide)

/-- Claim C5 (amended): cosmetic invariance holds for every pair of
texts whose lines correspond one to one with equal normalized forms and
equal noise status — which bullet, arrow, case and whitespace edits
guarantee unless they split or merge lines or create or destroy a noise
pattern; then `added` and `removed` are both empty. -/
theorem claim_C5 (o n : List Char)
    (h : List.Forall₂ (fun l1 l2 => normalizeLine l1 = normalizeLine l2
        ∧ isNoise l1 = isNoise l2) (splitlines o) (splitlines n)) :
    (compare o n).added = [] ∧ (compare o n).removed = [] := by
  have heq := normList_eq_of_forall₂ o n h
  constructor
  · rw [compare_added_eq, stableSort_eq_nil_iff, List.flatMap_eq_nil_iff]
    intro k _
    rw [addedBlock_eq_removedBlock]
    simp only [removedBlock]
    rw [heq]
    rw [if_neg (by omega)]
  · rw [compare_removed_eq, stableSort_eq_nil_iff, List.flatMap_eq_nil_iff]
    intro k _
    simp only [removedBlock]
    rw [heq]
    rw [if_neg (by omega)]

/-- Claim C5, witnessed on a bullet/case/whitespace variant pair. -/
theorem claim_C5_witness :
    (compare "- Choose  Save".data "• CHOOSE SAVE".data).added = []
    ∧ (compare "- Choose  Save".data "• CHOOSE SAVE".data).removed = [] :=
  claim_C5 "- Choose  Save".data "• CHOOSE SAVE".data
    (List.Forall₂.cons ⟨by decide, by decide⟩ List.Forall₂.nil)

/-- Claim C9 counterexample: structural warnings of equal (HIGH)
severity keep detector emission order, which follows the line order of
the text, not the lexicographic order of their messages: the gap of the
first sub-procedure ("Step 6 ...") precedes the lexicographically
smaller "Step 2 ..." of the second sub-procedure. -/
theorem claim_C9_counterexample :
    (compare "".data "5. a\n7. b\n1. c\n3. d".data).structural_warnings
      = [⟨WarnType.NUMBERING_GAP, Severity.HIGH,
          "Step 6 is missing (numbering jumps from 5 to 7)".data⟩,
         ⟨WarnType.NUMBERING_GAP, Severity.HIGH,
          "Step 2 is missing (numbering jumps from 1 to 3)".data⟩]
    ∧ ¬ List.Pairwise (fun w1 w2 => w1.severity = w2.severity →
          lexLe w1.message w2.message = true)
        ((compare "".data "5. a\n7. b\n1. c\n3. d".data).structural_warnings) := by
  refine ⟨by decide, ?_⟩
  intro hpw
  rw [(by decide : (compare "".data "5. a\n7. b\n1. c\n3. d".data).structural_warnings
      = [⟨WarnType.NUMBERING_GAP, Severity.HIGH,
          "Step 6 is missing (numbering jumps from 5 to 7)".data⟩,
         ⟨WarnType.NUMBERING_GAP, Severity.HIGH,
          "Step 2 is missing (numbering jumps from 1 to 3)".data⟩])] at hpw
  rw [List.pairwise_cons] at hpw
  have h1 := hpw.1 _ (List.mem_cons_self _ _) rfl
  exact absurd h1 (by decide)

/-- Claim C9 (amended): the output is a deterministic function of the
two input texts; within `added` and within `removed`, entries of equal
severity appear in ascending lexicographic order of their normalized
keys; structural warnings keep detector emission order (the final sort
is the identity on them since all warnings are HIGH), so their relative
order is insertion-driven rather than key-driven. -/
theorem claim_C9 (o n : List Char) :
    List.Pairwise (fun e1 e2 => e1.severity = e2.severity →
      lexLe (normalizeLine e1.text) (normalizeLine e2.text) = true) (compare o n).added
    ∧ List.Pairwise (fun e1 e2 => e1.severity = e2.severity →
      lexLe (normalizeLine e1.text) (normalizeLine e2.text) = true) (compare o n).removed
    ∧ (compare o n).structural_warnings = validateStructure o n :=
  ⟨compare_added_pairwise_lex o n, compare_removed_pairwise_lex o n,
    compare_structural_eq o n⟩

end SapDoc
